import Mathlib

/-!
Verification development for the recursive DOM-cloning pipeline of
`src/clone-node.ts` (html-to-image).  The TypeScript source is shallowly
embedded: live DOM nodes become an inductive tree (`Node`), clones become
`CNode`, CSS style declaration blocks become `StyleDecl`, asynchronous
rejection becomes `Except String`, and the ambient browser state
(`window.scrollY`, `window.innerHeight`) together with the external
collaborators (`resourceToDataURL`, `getMimeType`, `clonePseudoElements`)
is threaded through an explicit read-only environment `Env`.
JavaScript numbers are modelled as exact rationals/integers (the values
involved in the style corrections are small enough that IEEE-754 rounding
never shows in the observed strings).
-/

/-- One CSS declaration: property name, value, and priority flag
(`"important"` or `""`), as in a `CSSStyleDeclaration` entry. -/
structure StyleProp where
  name : String
  value : String
  priority : String
deriving Repr, DecidableEq

/-- A CSS style declaration block.  Used both for the read-only computed
style of a live node (`window.getComputedStyle`) and for the mutable
inline style of a clone.  `props` is the ordered list of declarations
(the iteration order of `toArray(style)` in the source); `cssText` is the
serialized text (empty for browser computed styles); `transformOrigin`
mirrors the dedicated accessor used by the fast path. -/
structure StyleDecl where
  cssText : String
  transformOrigin : String
  props : List StyleProp
deriving Repr, DecidableEq

namespace StyleDecl

/-- The first declaration with the given name. -/
def lookup (l : List StyleProp) (n : String) : Option StyleProp :=
  match l with
  | [] => none
  | p :: t => if p.name = n then some p else lookup t n

/-- Drop every declaration with the given name. -/
def erase (l : List StyleProp) (n : String) : List StyleProp :=
  match l with
  | [] => []
  | p :: t => if p.name = n then erase t n else p :: erase t n

/-- Update every declaration with the given name in place. -/
def update (l : List StyleProp) (n v pr : String) : List StyleProp :=
  match l with
  | [] => []
  | p :: t => (if p.name = n then ⟨n, v, pr⟩ else p) :: update t n v pr

/-- Whether a declaration with the given name is present. -/
def contains (l : List StyleProp) (n : String) : Bool :=
  match l with
  | [] => false
  | p :: t => p.name == n || contains t n

/-- `style.getPropertyValue(name)`: value of the first declaration with
this name, `""` when absent. -/
def getPropertyValue (s : StyleDecl) (n : String) : String :=
  match lookup s.props n with
  | some p => p.value
  | none => ""

/-- `style.getPropertyPriority(name)`: priority of the first declaration
with this name, `""` when absent. -/
def getPropertyPriority (s : StyleDecl) (n : String) : String :=
  match lookup s.props n with
  | some p => p.priority
  | none => ""

/-- `style.removeProperty(name)`. -/
def removeProperty (s : StyleDecl) (n : String) : StyleDecl :=
  { s with props := erase s.props n }

/-- `style.setProperty(name, value, priority)`: CSSOM semantics — an empty
value removes the declaration, an existing declaration is updated in
place, otherwise the declaration is appended. -/
def setProperty (s : StyleDecl) (n v pr : String) : StyleDecl :=
  if v = "" then s.removeProperty n
  else if contains s.props n then { s with props := update s.props n v pr }
  else { s with props := s.props ++ [⟨n, v, pr⟩] }

/-- Whether a declaration with this name is present. -/
def hasProperty (s : StyleDecl) (n : String) : Bool :=
  contains s.props n

/-- The camel-case accessor `style.overflowY` resolves to the `overflow-y`
property. -/
def overflowY (s : StyleDecl) : String := s.getPropertyValue "overflow-y"

/-- `style.position`. -/
def position (s : StyleDecl) : String := s.getPropertyValue "position"

/-- `style.minHeight` resolves to `min-height`. -/
def minHeight (s : StyleDecl) : String := s.getPropertyValue "min-height"

/-- `style.height`. -/
def height (s : StyleDecl) : String := s.getPropertyValue "height"

/-- The iterated property names (`toArray<string>(sourceStyle)`). -/
def names (s : StyleDecl) : List String := s.props.map (fun p => p.name)

end StyleDecl

/-- An empty style declaration block. -/
def emptyStyle : StyleDecl := ⟨"", "", []⟩

/-- The numeric value of a list of decimal digits. -/
def digitsVal (l : List Char) : ℕ :=
  l.foldl (fun a c => 10 * a + (c.toNat - '0'.toNat)) 0

/-- A finite decimal number `±intPart.fracPart` (with `fracLen` fractional
digits), the exact value denoted by a plain decimal literal.  JavaScript
numbers are modelled exactly; the magnitudes in the style corrections are
far below where IEEE-754 rounding could show in the observed strings. -/
structure DecNum where
  neg : Bool
  intPart : ℕ
  fracPart : ℕ
  fracLen : ℕ
deriving Repr, DecidableEq

/-- The rational value of a parsed decimal. -/
def DecNum.toRat (d : DecNum) : ℚ :=
  (if d.neg then -1 else 1) * ((d.intPart : ℚ) + (d.fracPart : ℚ) / ((10 : ℚ) ^ d.fracLen))

/-- `Math.floor` on the value of a parsed decimal, computed on the digit
record (proved below to be the mathematical floor of `toRat`). -/
def DecNum.jsFloor (d : DecNum) : Int :=
  if d.neg then
    if d.fracPart = 0 then -(d.intPart : Int) else -(d.intPart : Int) - 1
  else (d.intPart : Int)

/-- The fractional digits after a leading dot (empty otherwise). -/
def fracDigits : List Char → List Char
  | '.' :: t => t.takeWhile Char.isDigit
  | _ => []

/-- Parse the unsigned part of a decimal literal: digits, optionally a
dot and further digits; `none` when no digit is found at all. -/
def parseDecCore (sign : Bool) (cs : List Char) : Option DecNum :=
  let intPart := cs.takeWhile Char.isDigit
  let fracPart := fracDigits (cs.dropWhile Char.isDigit)
  if intPart.isEmpty ∧ fracPart.isEmpty then none
  else some ⟨sign, digitsVal intPart, digitsVal fracPart, fracPart.length⟩

/-- JavaScript `parseFloat` on the plain decimal strings produced by
computed-style serialization: optional sign, digits, optional fractional
part; `none` models `NaN`. -/
def jsParseFloat (s : String) : Option DecNum :=
  match s.toList with
  | '-' :: t => parseDecCore true t
  | '+' :: t => parseDecCore false t
  | cs => parseDecCore false cs

/-- JavaScript `parseInt` (radix 10) on plain decimal strings: optional
sign then leading digits; `none` models `NaN`. -/
def jsParseInt (s : String) : Option Int :=
  let cs := s.toList
  let (sign, cs') : Int × List Char :=
    match cs with
    | '-' :: t => (-1, t)
    | '+' :: t => (1, t)
    | _ => (1, cs)
  let intPart := cs'.takeWhile Char.isDigit
  if intPart.isEmpty then none
  else some (sign * (digitsVal intPart : ℕ))

/-- JavaScript `<` on two possibly-NaN numbers: any comparison with NaN
is false. -/
def jsLt (a b : Option Int) : Bool :=
  match a, b with
  | some x, some y => decide (x < y)
  | _, _ => false

/-- Whether `pat` is a prefix of the first list. -/
def listStartsWith : List Char → List Char → Bool
  | _, [] => true
  | [], _ :: _ => false
  | a :: as, b :: bs => a == b && listStartsWith as bs

/-- JavaScript `String.prototype.endsWith`. -/
def jsEndsWith (s suffix : String) : Bool :=
  listStartsWith s.toList.reverse suffix.toList.reverse

/-- JavaScript `String.prototype.toUpperCase` (ASCII case mapping — the
tag names involved are ASCII). -/
def jsToUpper (s : String) : String :=
  ⟨s.toList.map Char.toUpper⟩

/-- Replace the first occurrence of `pat` (scanning left to right). -/
def replaceFirstAux (pat repl : List Char) : List Char → List Char
  | [] => []
  | c :: rest =>
    if listStartsWith (c :: rest) pat then repl ++ (c :: rest).drop pat.length
    else c :: replaceFirstAux pat repl rest

/-- JavaScript `String.prototype.replace` with a string pattern replaces
only the first occurrence (an empty pattern matches at the start). -/
def replaceFirst (s pat repl : String) : String :=
  if pat.isEmpty then repl ++ s
  else ⟨replaceFirstAux pat.toList repl.toList s.toList⟩

/-- Decimal rendering of the rational `n/10` (`n` an integer not divisible
by 10), matching JavaScript number-to-string output for such values. -/
def tenthsString (n : Int) : String :=
  if n < 0 then "-" ++ toString ((-n) / 10) ++ "." ++ toString ((-n) % 10)
  else toString (n / 10) ++ "." ++ toString (n % 10)

/-- The font-size rewrite of the source
(`Math.floor(parseFloat(value.substring(0, value.length - 2))) - 0.1`
followed by `` `${reducedFont}px` ``): the numeric value is floored and
reduced by one tenth; a parse failure propagates as `NaN`. -/
def fontShrink (v : String) : String :=
  match jsParseFloat (v.dropRight 2) with
  | some d => tenthsString (10 * d.jsFloor - 1) ++ "px"
  | none => "NaNpx"

/-- The node categories distinguished by the source's `instanceof` tests
plus the image nodes produced by `createImage` and non-element text
nodes. -/
inductive NodeKind where
  | element | canvas | video | img | input | textarea | select | text
deriving Repr, DecidableEq

/-- Style/scroll data of the parent element of a live node, as observed by
`nativeNode.parentElement` (only its `scrollTop` and computed style are
read by the source). -/
structure ParentInfo where
  scrollTop : Int
  computed : StyleDecl
deriving Repr, DecidableEq

/-- The non-recursive observable data of a live DOM node. -/
structure NodeData where
  tag : Option String        -- `tagName` (absent on non-element nodes)
  kind : NodeKind
  attrs : List (String × String)
  inlineStyle : StyleDecl    -- the style attribute, copied by `cloneNode(false)`
  computed : StyleDecl       -- `window.getComputedStyle(node)`
  scrollTop : Int
  poster : String            -- `video.poster` ("" when unset)
  canvasDataURL : String     -- result of `canvas.toDataURL()`
  value : String             -- form-control `value`
  parent : Option ParentInfo -- `parentElement` view
deriving Repr, DecidableEq

/-- A live DOM node: its data, the optional `assignedNodes()` result (the
option is `some` exactly when the method exists), the optional shadow
root's child nodes, and its own `childNodes`. -/
inductive Node : Type where
  | mk : NodeData → Option (List Node) → Option (List Node) → List Node → Node

namespace Node

def data : Node → NodeData
  | .mk d _ _ _ => d

def assigned : Node → Option (List Node)
  | .mk _ a _ _ => a

def shadow : Node → Option (List Node)
  | .mk _ _ s _ => s

def childNodes : Node → List Node
  | .mk _ _ _ c => c

def tag (n : Node) : Option String := n.data.tag
def kind (n : Node) : NodeKind := n.data.kind
def computed (n : Node) : StyleDecl := n.data.computed
def scrollTop (n : Node) : Int := n.data.scrollTop
def poster (n : Node) : String := n.data.poster
def canvasDataURL (n : Node) : String := n.data.canvasDataURL
def parent (n : Node) : Option ParentInfo := n.data.parent

/-- `node instanceof HTMLVideoElement`. -/
def isVideo (n : Node) : Bool := n.kind = NodeKind.video

end Node

/-- The non-recursive data of a clone node. -/
structure CNodeData where
  tag : Option String
  kind : NodeKind
  src : String               -- image source (for nodes made by `createImage`)
  attrs : List (String × String)
  style : StyleDecl
  innerHTML : String
deriving Repr, DecidableEq

/-- A detached clone node: data plus child list. -/
inductive CNode : Type where
  | mk : CNodeData → List CNode → CNode

namespace CNode

def data : CNode → CNodeData
  | .mk d _ => d

def children : CNode → List CNode
  | .mk _ cs => cs

def withChildren : CNode → List CNode → CNode
  | .mk d _, cs => .mk d cs

/-- `clonedNode.appendChild(child)`. -/
def appendChild (c : CNode) (child : CNode) : CNode :=
  c.withChildren (c.children ++ [child])

def style (c : CNode) : StyleDecl := c.data.style

def withStyle : CNode → StyleDecl → CNode
  | .mk d cs, st => .mk { d with style := st } cs

def kind (c : CNode) : NodeKind := c.data.kind
def tag (c : CNode) : Option String := c.data.tag
def src (c : CNode) : String := c.data.src

/-- `clonedNode instanceof Element`. -/
def isElement (c : CNode) : Bool := c.kind ≠ NodeKind.text

/-- `child.getAttribute(name)` (`none` models `null`). -/
def getAttribute (c : CNode) (n : String) : Option String :=
  (c.data.attrs.find? (fun a => a.1 = n)).map (fun a => a.2)

/-- `clonedNode.setAttribute(name, value)`. -/
def setAttribute (c : CNode) (n v : String) : CNode :=
  match c with
  | .mk d cs =>
    if d.attrs.any (fun a => a.1 = n) then
      .mk { d with attrs := d.attrs.map (fun a => if a.1 = n then (n, v) else a) } cs
    else
      .mk { d with attrs := d.attrs ++ [(n, v)] } cs

/-- Assigning `innerHTML` replaces the child list with the parsed markup
(the parse itself is not modelled; the children are dropped). -/
def setInnerHTML : CNode → String → CNode
  | .mk d _, v => .mk { d with innerHTML := v } []

end CNode

/-- Caller options (`Options`): only the inclusion predicate
`options.filter` is read by this module; the resource options are carried
opaquely by `Env.resourceToDataURL`. -/
structure Options where
  filter : Option (Node → Bool)

/-- Ambient browser state and external collaborators, made explicit.
The function fields model repository code that is outside this module.

* `getMimeType` — Modelled from the spec: `getMimeType(url) -> string`
  (src/mimes.ts, not included here) is a pure synchronous best-effort
  MIME inference.
* `resourceToDataURL` — Modelled from the spec:
  `resourceToDataURL(url, mimeType, options) -> Promise<string>`
  (src/dataurl.ts, not included here) returns an embeddable
  representation or fails; it is kept abstract as a failable function.
* `clonePseudoElements` — Modelled from the spec: `clonePseudoElements`
  (src/clone-pseudos.ts, not included here) synchronously mutates the
  clone to carry generated-content styling; it is kept abstract as a
  total function on clones. -/
structure Env where
  scrollY : Int
  innerHeight : Int
  getMimeType : String → String
  resourceToDataURL : String → String → Options → Except String String
  clonePseudoElements : Node → CNode → CNode

/-- Modelled from the spec: `createImage` (src/util.ts, not included
here) produces a new image-type node whose source is the given data
URL. -/
def createImage (url : String) : CNode :=
  .mk { tag := some "IMG", kind := NodeKind.img, src := url, attrs := [],
        style := emptyStyle, innerHTML := "" } []

/-- `node.cloneNode(false)`: a shallow clone — same tag/kind/attributes
and a copy of the inline style attribute, no children, no pixel data. -/
def shallowClone (n : Node) : CNode :=
  .mk { tag := n.tag, kind := n.kind, src := "", attrs := n.data.attrs,
        style := n.data.inlineStyle, innerHTML := "" } []

/-- `cloneCanvasElement`: serialize the pixels; the sentinel `"data:,"`
(empty canvas) falls back to a shallow structural clone, otherwise an
image node carrying the serialization replaces the canvas. -/
def cloneCanvasElement (n : Node) : Except String CNode :=
  let dataURL := n.canvasDataURL
  if dataURL = "data:," then Except.ok (shallowClone n)
  else Except.ok (createImage dataURL)

/-- `cloneVideoElement`: convert the poster to a data URL (this may
reject) and replace the video by an image node. -/
def cloneVideoElement (env : Env) (options : Options) (n : Node) : Except String CNode := do
  let poster := n.poster
  let contentType := env.getMimeType poster
  let dataURL ← env.resourceToDataURL poster contentType options
  return createImage dataURL

/-- `cloneSingleNode`: canvas and poster-bearing video get special
treatment, everything else is cloned shallowly. -/
def cloneSingleNode (env : Env) (options : Options) (n : Node) : Except String CNode :=
  if n.kind = NodeKind.canvas then cloneCanvasElement n
  else if n.kind = NodeKind.video ∧ n.poster ≠ "" then cloneVideoElement env options n
  else Except.ok (shallowClone n)

/-- `isSlotElement`: `tagName != null && tagName.toUpperCase() === "SLOT"`. -/
def isSlotTag (t : Option String) : Bool :=
  match t with
  | some s => jsToUpper s == "SLOT"
  | none => false

/-- `isSlotElement(node)`. -/
def isSlotElement (n : Node) : Bool := isSlotTag n.tag

/-- The effective child list of `cloneChildren`:
`isSlotElement(node) && node.assignedNodes ? toArray(node.assignedNodes())
: toArray((node.shadowRoot ?? node).childNodes)`. -/
def Node.effectiveChildren : Node → List Node
  | Node.mk d a s c =>
    if isSlotTag d.tag && a.isSome then a.getD []
    else
      match s with
      | some l => l
      | none => c

/-- The ancestor-scroll condition of the per-property loop:
`parent.scrollTop > 0 && (parentStyle.overflowY === "auto" ||
parentStyle.overflowY === "scroll")`. -/
def ancestorScrollCond (p : ParentInfo) : Bool :=
  decide (p.scrollTop > 0) &&
    (p.computed.overflowY == "auto" || p.computed.overflowY == "scroll")

/-- The document("body")-scroll condition of the per-property loop:
`sourceStyle.position !== "fixed" && parentStyle.minHeight ===
`${window.innerHeight}px` && parseInt(parentStyle.minHeight.replace("px",
"")) < parseInt(sourceStyle.height.replace("px", ""))`. -/
def bodyScrollCond (env : Env) (src ps : StyleDecl) : Bool :=
  src.position != "fixed" &&
    ps.minHeight == toString env.innerHeight ++ "px" &&
    jsLt (jsParseInt (replaceFirst ps.minHeight "px" ""))
      (jsParseInt (replaceFirst src.height "px" ""))

/-- One iteration of the per-property loop of `cloneCSSStyle`: compute the
(possibly corrected) value for `name`, remove `inset-block` when `top` is
rewritten, and commit the property with its source priority. -/
def applyName (env : Env) (native : Node) (st : StyleDecl) (name : String) : StyleDecl :=
  let src := native.computed
  let value0 := src.getPropertyValue name
  let value1 :=
    if name = "font-size" ∧ jsEndsWith value0 "px" then fontShrink value0 else value0
  let value2 :=
    if native.scrollTop > 0 ∧ (src.overflowY = "auto" ∨ src.overflowY = "scroll") ∧
        name = "overflow-y" then "hidden"
    else value1
  match native.parent with
  | none => st.setProperty name value2 (src.getPropertyPriority name)
  | some p =>
    let step3 : String × StyleDecl :=
      if ancestorScrollCond p then
        if name = "position" then ("relative", st)
        else if name = "top" then
          ("-" ++ toString p.scrollTop ++ "px", st.removeProperty "inset-block")
        else (value2, st)
      else (value2, st)
    let step4 : String × StyleDecl :=
      if bodyScrollCond env src p.computed then
        if name = "position" then ("relative", step3.2)
        else if name = "top" then
          ("-" ++ toString env.scrollY ++ "px", step3.2.removeProperty "inset-block")
        else (step3.1, step3.2)
      else step3
    step4.2.setProperty name step4.1 (src.getPropertyPriority name)

/-- `cloneCSSStyle`: no style surface means no work; a non-empty computed
`cssText` is copied verbatim together with `transformOrigin` (assigning
`cssText` replaces the whole declaration block; the parsed form of the
text is not modelled); otherwise every computed property name is iterated
through `applyName`. -/
def cloneCSSStyle (env : Env) (native : Node) (cloned : CNode) : CNode :=
  if cloned.kind = NodeKind.text then cloned
  else
    let src := native.computed
    if src.cssText ≠ "" then
      cloned.withStyle { cssText := src.cssText,
                         transformOrigin := src.transformOrigin, props := [] }
    else
      cloned.withStyle (src.names.foldl (applyName env native) cloned.style)

/-- `cloneInputValue`: a textarea's live value becomes the clone's inner
content; an input's live value becomes an explicit attribute. -/
def cloneInputValue (native : Node) (cloned : CNode) : CNode :=
  let c1 :=
    if native.kind = NodeKind.textarea then cloned.setInnerHTML native.data.value
    else cloned
  if native.kind = NodeKind.input then c1.setAttribute "value" native.data.value
  else c1

/-- The `find`-and-mark of `cloneSelectValue` over the clone's element
children: the first element child whose `value` attribute equals the
original's value gets a `selected` attribute. -/
def markSelected (v : String) : List CNode → List CNode
  | [] => []
  | ch :: rest =>
    if ch.isElement && ch.getAttribute "value" == some v then
      ch.setAttribute "selected" "" :: rest
    else ch :: markSelected v rest

/-- `cloneSelectValue`. -/
def cloneSelectValue (native : Node) (cloned : CNode) : CNode :=
  if native.kind = NodeKind.select then
    cloned.withChildren (markSelected native.data.value cloned.children)
  else cloned

/-- `decorate`: element clones get style replication, pseudo-element
cloning, input-value copy and select-value copy, in that order. -/
def decorate (env : Env) (native : Node) (cloned : CNode) : CNode :=
  if cloned.isElement then
    cloneSelectValue native
      (cloneInputValue native
        (env.clonePseudoElements native (cloneCSSStyle env native cloned)))
  else cloned

/-- `!isRoot && options.filter && !options.filter(node)` without the
`!isRoot` conjunct. -/
def filterExcludes (options : Options) (n : Node) : Bool :=
  match options.filter with
  | some f => !(f n)
  | none => false

/-- Result of an instrumented clone run: the value (or rejection), the
pre-order trace of nodes `cloneNode` was invoked on, and the trace of
nodes the inclusion predicate was consulted on. -/
structure CloneRes where
  res : Except String (Option CNode)
  calls : List Node
  fcalls : List Node

theorem sizeOf_effectiveChildren (n : Node) : sizeOf n.effectiveChildren < sizeOf n := by
  match n with
  | Node.mk d a s c =>
    cases a <;> cases s <;>
      simp only [Node.effectiveChildren, Option.getD, Option.isSome] <;>
      split <;> simp <;> omega

theorem sizeOf_mem_list {n : Node} {l : List Node} (h : n ∈ l) : sizeOf n < sizeOf l :=
  List.sizeOf_lt_of_mem h

mutual

/-- `cloneNode`, instrumented with invocation traces.  The
`Promise`-chain `cloneSingleNode → cloneChildren → decorate` becomes
monadic sequencing in `Except`. -/
def cloneNodeT (env : Env) (options : Options) (isRoot : Bool) (n : Node) : CloneRes :=
  let fc : List Node := if !isRoot && options.filter.isSome then [n] else []
  if !isRoot && filterExcludes options n then
    { res := Except.ok none, calls := [n], fcalls := fc }
  else
    match cloneSingleNode env options n with
    | Except.error e => { res := Except.error e, calls := [n], fcalls := fc }
    | Except.ok c0 =>
      match cloneChildrenT env options n c0 with
      | (Except.error e, cl, fl) =>
        { res := Except.error e, calls := n :: cl, fcalls := fc ++ fl }
      | (Except.ok c1, cl, fl) =>
        { res := Except.ok (some (decorate env n c1)), calls := n :: cl,
          fcalls := fc ++ fl }
  termination_by 2 * sizeOf n + 1
  decreasing_by all_goals simp_wf

/-- `cloneChildren`, instrumented: an empty effective child list or a
video short-circuits; otherwise the children are folded sequentially. -/
def cloneChildrenT (env : Env) (options : Options) (native : Node) (cloned : CNode) :
    Except String CNode × List Node × List Node :=
  let children := native.effectiveChildren
  if children.length = 0 || native.isVideo then (Except.ok cloned, [], [])
  else cloneListT env options children cloned
  termination_by 2 * sizeOf native
  decreasing_by all_goals (have hlt := sizeOf_effectiveChildren native; simp_wf; assumption)

/-- The sequential `children.reduce` chain: each child is cloned
(non-root) in order; a `null` result is skipped, otherwise the child
clone is appended; a rejection aborts the chain. -/
def cloneListT (env : Env) (options : Options) (cs : List Node) (acc : CNode) :
    Except String CNode × List Node × List Node :=
  match cs with
  | [] => (Except.ok acc, [], [])
  | c :: rest =>
    match cloneNodeT env options false c with
    | { res := Except.error e, calls := cl, fcalls := fl } => (Except.error e, cl, fl)
    | { res := Except.ok none, calls := cl, fcalls := fl } =>
      let r := cloneListT env options rest acc
      (r.1, cl ++ r.2.1, fl ++ r.2.2)
    | { res := Except.ok (some cc), calls := cl, fcalls := fl } =>
      let r := cloneListT env options rest (acc.appendChild cc)
      (r.1, cl ++ r.2.1, fl ++ r.2.2)
  termination_by 2 * sizeOf cs
  decreasing_by all_goals (simp_wf; try omega)

end

/-- The public entry point `cloneNode(node, options, isRoot?)`. -/
def cloneNode (env : Env) (n : Node) (options : Options) (isRoot : Bool := false) :
    Except String (Option CNode) :=
  (cloneNodeT env options isRoot n).res

namespace StyleDecl

theorem lookup_erase_self (l : List StyleProp) (n : String) :
    lookup (erase l n) n = none := by
  induction l with
  | nil => simp [erase, lookup]
  | cons p t ih =>
    by_cases h : p.name = n <;> simp [erase, lookup, h, ih]

theorem lookup_erase_other (l : List StyleProp) (n m : String) (h : m ≠ n) :
    lookup (erase l n) m = lookup l m := by
  induction l with
  | nil => simp [erase]
  | cons p t ih =>
    by_cases hn : p.name = n
    · have hm : p.name ≠ m := by rw [hn]; exact Ne.symm h
      simp [erase, lookup, hn, hm, h, Ne.symm h, ih]
    · by_cases hm : p.name = m <;> simp [erase, lookup, hn, hm, h, Ne.symm h, ih]

theorem lookup_update_self (l : List StyleProp) (n v pr : String)
    (hc : contains l n = true) : lookup (update l n v pr) n = some ⟨n, v, pr⟩ := by
  induction l with
  | nil => simp [contains] at hc
  | cons p t ih =>
    by_cases h : p.name = n
    · simp [update, lookup, h]
    · simp only [contains, List.any_cons] at hc
      have : contains t n = true := by
        cases hq : contains t n
        · rw [hq] at hc; simp [h] at hc
        · rfl
      simp [update, lookup, h, ih this]

theorem lookup_update_other (l : List StyleProp) (n v pr m : String) (h : m ≠ n) :
    lookup (update l n v pr) m = lookup l m := by
  induction l with
  | nil => simp [update]
  | cons p t ih =>
    by_cases hn : p.name = n
    · have hm : p.name ≠ m := by rw [hn]; exact Ne.symm h
      simp [update, lookup, hn, hm, h, Ne.symm h, ih]
    · by_cases hm : p.name = m <;> simp [update, lookup, hn, hm, h, Ne.symm h, ih]

theorem lookup_append_some (l l' : List StyleProp) (n : String) (p : StyleProp)
    (h : lookup l n = some p) : lookup (l ++ l') n = some p := by
  induction l with
  | nil => simp [lookup] at h
  | cons q t ih =>
    by_cases hq : q.name = n
    · simp only [lookup, hq, if_true] at h
      simp [lookup, hq, h]
    · simp only [lookup, hq, if_false] at h
      simp [lookup, hq, ih h]

theorem lookup_append_none (l l' : List StyleProp) (n : String)
    (h : lookup l n = none) : lookup (l ++ l') n = lookup l' n := by
  induction l with
  | nil => simp
  | cons p t ih =>
    by_cases hp : p.name = n
    · simp [lookup, hp] at h
    · simp only [lookup, hp, if_false] at h
      simp [lookup, hp, ih h]

theorem contains_eq_false_lookup (l : List StyleProp) (n : String)
    (h : contains l n = false) : lookup l n = none := by
  induction l with
  | nil => rfl
  | cons p t ih =>
    simp only [contains, Bool.or_eq_false_iff, beq_eq_false_iff_ne, ne_eq] at h
    simp [lookup, h.1, ih h.2]

theorem getPropertyValue_setProperty_self (s : StyleDecl) (n v pr : String) :
    (s.setProperty n v pr).getPropertyValue n = v := by
  unfold setProperty
  by_cases hv : v = ""
  · simp [hv, removeProperty, getPropertyValue, lookup_erase_self]
  · by_cases hc : contains s.props n
    · simp [hv, hc, getPropertyValue, lookup_update_self s.props n v pr hc]
    · have : lookup s.props n = none :=
        contains_eq_false_lookup s.props n (by simpa using hc)
      simp [hv, hc, getPropertyValue, lookup_append_none s.props _ n this, lookup]

theorem getPropertyValue_setProperty_other (s : StyleDecl) (n v pr m : String)
    (h : m ≠ n) : (s.setProperty n v pr).getPropertyValue m = s.getPropertyValue m := by
  unfold setProperty
  by_cases hv : v = ""
  · simp [hv, removeProperty, getPropertyValue, lookup_erase_other s.props n m h]
  · by_cases hc : contains s.props n
    · simp [hv, hc, getPropertyValue, lookup_update_other s.props n v pr m h]
    · simp only [hv, hc, if_false, Bool.false_eq_true, getPropertyValue]
      cases hl : lookup s.props m with
      | some p =>
        have := lookup_append_some s.props [⟨n, v, pr⟩] m p hl
        simp [this]
      | none =>
        have := lookup_append_none s.props [⟨n, v, pr⟩] m hl
        simp [this, lookup, Ne.symm h]

theorem hasProperty_removeProperty_self (s : StyleDecl) (n : String) :
    (s.removeProperty n).hasProperty n = false := by
  unfold removeProperty hasProperty
  simp only
  induction s.props with
  | nil => rfl
  | cons p t ih =>
    by_cases h : p.name = n <;> simp [erase, contains, h, ih]

theorem hasProperty_removeProperty_other (s : StyleDecl) (n m : String) (h : m ≠ n) :
    (s.removeProperty n).hasProperty m = s.hasProperty m := by
  unfold removeProperty hasProperty
  simp only
  induction s.props with
  | nil => rfl
  | cons p t ih =>
    by_cases hn : p.name = n
    · have hm : p.name ≠ m := by rw [hn]; exact Ne.symm h
      simp [erase, contains, hn, hm, h, Ne.symm h, ih]
    · by_cases hm : p.name = m <;> simp [erase, contains, hn, hm, h, Ne.symm h, ih]

theorem hasProperty_setProperty_other (s : StyleDecl) (n v pr m : String)
    (h : m ≠ n) : (s.setProperty n v pr).hasProperty m = s.hasProperty m := by
  unfold setProperty
  by_cases hv : v = ""
  · simpa [hv] using hasProperty_removeProperty_other s n m h
  · by_cases hc : contains s.props n
    · simp only [hv, hc, if_false, if_true, hasProperty]
      induction s.props with
      | nil => rfl
      | cons p t ih =>
        by_cases hn : p.name = n
        · have hm : p.name ≠ m := by rw [hn]; exact Ne.symm h
          simp [update, contains, hn, hm, h, Ne.symm h, ih]
        · by_cases hm : p.name = m <;> simp [update, contains, hn, hm, h, Ne.symm h, ih]
    · simp only [hv, hc, if_false, Bool.false_eq_true, hasProperty]
      induction s.props with
      | nil => simp [contains, Ne.symm h]
      | cons p t ih =>
        by_cases hm : p.name = m <;> simp [contains, hm, ih]

end StyleDecl

namespace StyleDecl

theorem getPropertyValue_removeProperty_other (s : StyleDecl) (n m : String)
    (h : m ≠ n) : (s.removeProperty n).getPropertyValue m = s.getPropertyValue m := by
  simp [removeProperty, getPropertyValue, lookup_erase_other s.props n m h]

theorem erase_erase (l : List StyleProp) (n : String) :
    erase (erase l n) n = erase l n := by
  induction l with
  | nil => rfl
  | cons p t ih =>
    by_cases h : p.name = n <;> simp [erase, h, ih]

theorem removeProperty_removeProperty (s : StyleDecl) (n : String) :
    (s.removeProperty n).removeProperty n = s.removeProperty n := by
  simp [removeProperty, erase_erase]

end StyleDecl

/-- The value the per-property loop commits for a given property name: a
pure function of the environment and the original node, extracted from
`applyName` (every occurrence of the same name receives the same value,
since the loop reads the value by name). -/
def correctedValue (env : Env) (native : Node) (name : String) : String :=
  let src := native.computed
  let value0 := src.getPropertyValue name
  let value1 :=
    if name = "font-size" ∧ jsEndsWith value0 "px" then fontShrink value0 else value0
  let value2 :=
    if native.scrollTop > 0 ∧ (src.overflowY = "auto" ∨ src.overflowY = "scroll") ∧
        name = "overflow-y" then "hidden"
    else value1
  match native.parent with
  | none => value2
  | some p =>
    let value3 :=
      if ancestorScrollCond p then
        if name = "position" then "relative"
        else if name = "top" then "-" ++ toString p.scrollTop ++ "px"
        else value2
      else value2
    if bodyScrollCond env src p.computed then
      if name = "position" then "relative"
      else if name = "top" then "-" ++ toString env.scrollY ++ "px"
      else value3
    else value3

/-- Whether the iteration for this property name removes `inset-block`
from the target: exactly when the name is `top` and a parent exists for
which the ancestor-scroll or the document-scroll check fires. -/
def insetTouched (env : Env) (native : Node) (name : String) : Bool :=
  name == "top" &&
    (match native.parent with
     | some p => ancestorScrollCond p || bodyScrollCond env native.computed p.computed
     | none => false)

theorem applyName_eq (env : Env) (native : Node) (st : StyleDecl) (name : String) :
    applyName env native st name =
      (if insetTouched env native name then st.removeProperty "inset-block" else st).setProperty
        name (correctedValue env native name) (native.computed.getPropertyPriority name) := by
  unfold applyName correctedValue insetTouched
  cases hp : native.parent with
  | none => simp
  | some p =>
    by_cases ha : ancestorScrollCond p <;>
      by_cases hb : bodyScrollCond env native.computed p.computed <;>
      by_cases h1 : name = "position" <;>
      by_cases h2 : name = "top" <;>
      simp_all [StyleDecl.removeProperty_removeProperty]

theorem applyName_getPropertyValue_self (env : Env) (native : Node) (st : StyleDecl)
    (name : String) :
    (applyName env native st name).getPropertyValue name = correctedValue env native name := by
  rw [applyName_eq]
  exact StyleDecl.getPropertyValue_setProperty_self _ _ _ _

theorem applyName_getPropertyValue_other (env : Env) (native : Node) (st : StyleDecl)
    (name m : String) (hm : m ≠ name) (hi : m ≠ "inset-block") :
    (applyName env native st name).getPropertyValue m = st.getPropertyValue m := by
  rw [applyName_eq, StyleDecl.getPropertyValue_setProperty_other _ _ _ _ _ hm]
  split
  · exact StyleDecl.getPropertyValue_removeProperty_other _ _ _ hi
  · rfl

theorem applyName_hasProperty_inset_false (env : Env) (native : Node) (st : StyleDecl)
    (name : String) (hname : name ≠ "inset-block")
    (h : st.hasProperty "inset-block" = false) :
    (applyName env native st name).hasProperty "inset-block" = false := by
  rw [applyName_eq, StyleDecl.hasProperty_setProperty_other _ _ _ _ _ (Ne.symm hname)]
  split
  · exact StyleDecl.hasProperty_removeProperty_self _ _
  · exact h

theorem applyName_top_hasProperty_inset (env : Env) (native : Node) (st : StyleDecl)
    (hit : insetTouched env native "top" = true) :
    (applyName env native st "top").hasProperty "inset-block" = false := by
  rw [applyName_eq, hit, if_pos rfl,
    StyleDecl.hasProperty_setProperty_other _ _ _ _ _ (by decide)]
  exact StyleDecl.hasProperty_removeProperty_self _ _

theorem foldl_applyName_not_mem (env : Env) (native : Node) (names : List String)
    (st : StyleDecl) (m : String) (hm : m ∉ names) (hi : m ≠ "inset-block") :
    (names.foldl (applyName env native) st).getPropertyValue m = st.getPropertyValue m := by
  induction names generalizing st with
  | nil => rfl
  | cons n rest ih =>
    have hmn : m ≠ n := fun h => hm (h ▸ List.mem_cons_self n rest)
    have hmr : m ∉ rest := fun h => hm (List.mem_cons_of_mem n h)
    rw [List.foldl_cons, ih _ hmr,
      applyName_getPropertyValue_other env native st n m hmn hi]

theorem foldl_applyName_mem (env : Env) (native : Node) (names : List String)
    (st : StyleDecl) (m : String) (hmem : m ∈ names) (hi : m ≠ "inset-block") :
    (names.foldl (applyName env native) st).getPropertyValue m =
      correctedValue env native m := by
  induction names generalizing st with
  | nil => cases hmem
  | cons n rest ih =>
    rw [List.foldl_cons]
    by_cases hr : m ∈ rest
    · exact ih _ hr
    · have hmn : m = n := by
        rcases List.mem_cons.mp hmem with h | h
        · exact h
        · exact absurd h hr
      subst hmn
      rw [foldl_applyName_not_mem env native rest _ m hr hi,
        applyName_getPropertyValue_self]

theorem foldl_applyName_inset_false (env : Env) (native : Node) (names : List String)
    (st : StyleDecl) (hns : "inset-block" ∉ names)
    (h : st.hasProperty "inset-block" = false) :
    (names.foldl (applyName env native) st).hasProperty "inset-block" = false := by
  induction names generalizing st with
  | nil => exact h
  | cons n rest ih =>
    have hn : n ≠ "inset-block" := fun hc => hns (hc ▸ List.mem_cons_self n rest)
    have hr : "inset-block" ∉ rest := fun hc => hns (List.mem_cons_of_mem n hc)
    rw [List.foldl_cons]
    exact ih _ hr (applyName_hasProperty_inset_false env native st n hn h)

theorem foldl_applyName_inset_removed (env : Env) (native : Node) (names : List String)
    (st : StyleDecl) (hns : "inset-block" ∉ names) (htop : "top" ∈ names)
    (hit : insetTouched env native "top" = true) :
    (names.foldl (applyName env native) st).hasProperty "inset-block" = false := by
  induction names generalizing st with
  | nil => cases htop
  | cons n rest ih =>
    have hr : "inset-block" ∉ rest := fun hc => hns (List.mem_cons_of_mem n hc)
    rw [List.foldl_cons]
    by_cases hrt : "top" ∈ rest
    · exact ih _ hr hrt
    · have hn : n = "top" := by
        rcases List.mem_cons.mp htop with h | h
        · exact h.symm
        · exact absurd h hrt
      subst hn
      exact foldl_applyName_inset_false env native rest _ hr
        (applyName_top_hasProperty_inset env native st hit)

theorem digit_toNat_le (c : Char) (h : c.isDigit = true) : c.toNat - '0'.toNat ≤ 9 := by
  simp only [Char.isDigit, decide_eq_true_eq, Bool.and_eq_true] at h
  obtain ⟨h1, h2⟩ := h
  have hv : c.val.toNat ≤ 57 := UInt32.toNat_le_of_le (by norm_num) h2
  have h0 : '0'.toNat = 48 := rfl
  simp only [Char.toNat] at *
  omega

theorem digitsVal_foldl_lt (l : List Char) (hd : ∀ c ∈ l, c.isDigit = true) :
    ∀ a : ℕ, l.foldl (fun a c => 10 * a + (c.toNat - '0'.toNat)) a < (a + 1) * 10 ^ l.length := by
  induction l with
  | nil => intro a; simp
  | cons c t ih =>
    intro a
    have hc : c.toNat - '0'.toNat ≤ 9 := digit_toNat_le c (hd c (List.mem_cons_self _ _))
    have ht : ∀ x ∈ t, x.isDigit = true := fun x hx => hd x (List.mem_cons_of_mem _ hx)
    have step := ih ht (10 * a + (c.toNat - '0'.toNat))
    have hmul : (10 * a + (c.toNat - '0'.toNat) + 1) * 10 ^ t.length ≤
        ((a + 1) * 10) * 10 ^ t.length :=
      Nat.mul_le_mul_right _ (by omega)
    calc List.foldl (fun a c => 10 * a + (c.toNat - '0'.toNat)) (10 * a + (c.toNat - '0'.toNat)) t
        < (10 * a + (c.toNat - '0'.toNat) + 1) * 10 ^ t.length := step
      _ ≤ ((a + 1) * 10) * 10 ^ t.length := hmul
      _ = (a + 1) * 10 ^ (t.length + 1) := by ring
      _ = (a + 1) * 10 ^ (c :: t).length := by simp

theorem digitsVal_lt (l : List Char) (hd : ∀ c ∈ l, c.isDigit = true) :
    digitsVal l < 10 ^ l.length := by
  have := digitsVal_foldl_lt l hd 0
  simpa [digitsVal] using this

theorem fracDigits_digits (l : List Char) : ∀ c ∈ fracDigits l, c.isDigit = true := by
  unfold fracDigits
  split
  · exact fun c hc => List.mem_takeWhile_imp hc
  · simp

theorem parseDecCore_frac_lt (sign : Bool) (cs : List Char) (d : DecNum)
    (h : parseDecCore sign cs = some d) : d.fracPart < 10 ^ d.fracLen := by
  unfold parseDecCore at h
  dsimp only at h
  split at h
  · cases h
  · injection h with h
    subst h
    exact digitsVal_lt _ (fracDigits_digits _)

theorem jsParseFloat_frac_lt (s : String) (d : DecNum)
    (h : jsParseFloat s = some d) : d.fracPart < 10 ^ d.fracLen := by
  unfold jsParseFloat at h
  split at h <;> exact parseDecCore_frac_lt _ _ _ h

/-- `DecNum.jsFloor` is the mathematical floor of the decimal's value:
witnessed by the two floor inequalities. -/
theorem DecNum.jsFloor_spec (d : DecNum) (h : d.fracPart < 10 ^ d.fracLen) :
    (d.jsFloor : ℚ) ≤ d.toRat ∧ d.toRat < d.jsFloor + 1 := by
  have hP : (0 : ℚ) < (10 : ℚ) ^ d.fracLen := by positivity
  have hr0 : (0 : ℚ) ≤ (d.fracPart : ℚ) / (10 : ℚ) ^ d.fracLen :=
    div_nonneg (by positivity) (le_of_lt hP)
  have hrlt : (d.fracPart : ℚ) / (10 : ℚ) ^ d.fracLen < 1 := by
    rw [div_lt_one hP]
    calc (d.fracPart : ℚ) < ((10 ^ d.fracLen : ℕ) : ℚ) := by exact_mod_cast h
      _ = (10 : ℚ) ^ d.fracLen := by push_cast; ring
  unfold DecNum.toRat DecNum.jsFloor
  cases hn : d.neg with
  | false =>
    constructor
    · push_cast
      nlinarith [hr0]
    · push_cast
      nlinarith [hrlt]
  | true =>
    by_cases hf : d.fracPart = 0
    · simp only [hf, if_true, if_pos rfl]
      constructor
      · push_cast [hf]
        ring_nf
        nlinarith [hP]
      · push_cast [hf]
        ring_nf
        nlinarith [hP]
    · simp only [hf, if_false]
      constructor
      · push_cast
        nlinarith [hrlt]
      · push_cast
        have hrpos : (0 : ℚ) < (d.fracPart : ℚ) / (10 : ℚ) ^ d.fracLen := by
          apply div_pos _ hP
          exact_mod_cast Nat.pos_of_ne_zero hf
        nlinarith [hrpos]

theorem CNode.style_withStyle (c : CNode) (st : StyleDecl) : (c.withStyle st).style = st := by
  cases c; rfl

theorem cloneCSSStyle_slow (env : Env) (native : Node) (clone : CNode)
    (hk : ¬clone.kind = NodeKind.text) (hc : native.computed.cssText = "") :
    cloneCSSStyle env native clone =
      clone.withStyle (native.computed.names.foldl (applyName env native) clone.style) := by
  unfold cloneCSSStyle
  simp [hk, hc]

theorem ancestorScrollCond_true (p : ParentInfo) (hs : p.scrollTop > 0)
    (ho : p.computed.overflowY = "auto" ∨ p.computed.overflowY = "scroll") :
    ancestorScrollCond p = true := by
  unfold ancestorScrollCond
  rcases ho with h | h <;> simp [hs, h]

theorem correctedValue_fontSize (env : Env) (native : Node) :
    correctedValue env native "font-size" =
      if jsEndsWith (native.computed.getPropertyValue "font-size") "px" then
        fontShrink (native.computed.getPropertyValue "font-size")
      else native.computed.getPropertyValue "font-size" := by
  unfold correctedValue
  cases hp : native.parent <;> split <;> simp_all

theorem correctedValue_overflowY (env : Env) (native : Node)
    (hs : native.scrollTop > 0)
    (ho : native.computed.overflowY = "auto" ∨ native.computed.overflowY = "scroll") :
    correctedValue env native "overflow-y" = "hidden" := by
  unfold correctedValue
  cases hp : native.parent <;> simp [hs, ho]

theorem correctedValue_top (env : Env) (native : Node) (p : ParentInfo)
    (hp : native.parent = some p) (ha : ancestorScrollCond p = true) :
    correctedValue env native "top" =
      if bodyScrollCond env native.computed p.computed then
        "-" ++ toString env.scrollY ++ "px"
      else "-" ++ toString p.scrollTop ++ "px" := by
  unfold correctedValue
  simp [hp, ha]

theorem correctedValue_position (env : Env) (native : Node) (p : ParentInfo)
    (hp : native.parent = some p)
    (h : ancestorScrollCond p = true ∨ bodyScrollCond env native.computed p.computed = true) :
    correctedValue env native "position" = "relative" := by
  unfold correctedValue
  rcases h with h | h
  · simp [hp, h]
  · simp [hp, h]

theorem insetTouched_top (env : Env) (native : Node) (p : ParentInfo)
    (hp : native.parent = some p)
    (h : ancestorScrollCond p = true ∨ bodyScrollCond env native.computed p.computed = true) :
    insetTouched env native "top" = true := by
  unfold insetTouched
  rcases h with h | h <;> simp [hp, h]

/-- Shared concrete fixtures for witnesses. -/
def wEnv : Env :=
  { scrollY := 7, innerHeight := 600, getMimeType := fun _ => "image/png",
    resourceToDataURL := fun _ _ _ => Except.ok "data:done",
    clonePseudoElements := fun _ c => c }

def baseData : NodeData :=
  { tag := some "DIV", kind := NodeKind.element, attrs := [], inlineStyle := emptyStyle,
    computed := emptyStyle, scrollTop := 0, poster := "", canvasDataURL := "", value := "",
    parent := none }

def wClone : CNode :=
  CNode.mk { tag := some "DIV", kind := NodeKind.element, src := "", attrs := [],
             style := emptyStyle, innerHTML := "" } []

def fontNode : Node :=
  Node.mk { baseData with computed := ⟨"", "", [⟨"font-size", "16px", ""⟩]⟩ } none none []

/-- **C3.** In the per-property style path (computed `cssText` empty), every
computed `font-size` value in pixel units is committed to the clone as the
floored numeric value minus one tenth, with the `px` unit retained — the
committed string is `tenthsString (10 ⋅ floor − 1) ++ "px"`, denoting
`floor − 0.1`, and `jsFloor` satisfies the floor inequalities for the
parsed numeric value; values not ending in `px` are committed unchanged. -/
theorem C3_fontSize_rounding (env : Env) (native : Node) (clone : CNode)
    (hk : ¬clone.kind = NodeKind.text)
    (htext : native.computed.cssText = "")
    (hmem : "font-size" ∈ native.computed.names) :
    ((cloneCSSStyle env native clone).style.getPropertyValue "font-size" =
      if jsEndsWith (native.computed.getPropertyValue "font-size") "px" then
        fontShrink (native.computed.getPropertyValue "font-size")
      else native.computed.getPropertyValue "font-size")
    ∧ ∀ d : DecNum,
        jsParseFloat ((native.computed.getPropertyValue "font-size").dropRight 2) = some d →
          fontShrink (native.computed.getPropertyValue "font-size") =
              tenthsString (10 * d.jsFloor - 1) ++ "px"
          ∧ ((d.jsFloor : ℚ) ≤ d.toRat ∧ d.toRat < d.jsFloor + 1)
          ∧ ((10 * d.jsFloor - 1 : ℚ) / 10 = (d.jsFloor : ℚ) - 1 / 10) := by
  constructor
  · rw [cloneCSSStyle_slow env native clone hk htext, CNode.style_withStyle,
      foldl_applyName_mem env native _ _ _ hmem (by decide), correctedValue_fontSize]
  · intro d hd
    refine ⟨?_, ?_, ?_⟩
    · unfold fontShrink
      rw [hd]
    · exact d.jsFloor_spec (jsParseFloat_frac_lt _ d hd)
    · ring

/-- Witness for C3 at a concrete input: computed `font-size: 16px` yields
clone `font-size: 15.9px`. -/
theorem C3_fontSize_rounding_witness :
    (cloneCSSStyle wEnv fontNode wClone).style.getPropertyValue "font-size" = "15.9px"
    ∧ fontShrink (fontNode.computed.getPropertyValue "font-size") =
        tenthsString (10 * (DecNum.mk false 16 0 0).jsFloor - 1) ++ "px" := by
  have h := C3_fontSize_rounding wEnv fontNode wClone (by decide) (by decide) (by decide)
  constructor
  · rw [h.1]
    decide
  · exact (h.2 ⟨false, 16, 0, 0⟩ (by decide)).1

def scrollNode : Node :=
  Node.mk { baseData with
    computed := ⟨"", "", [⟨"overflow-y", "auto", ""⟩]⟩, scrollTop := 40 } none none []

/-- **C4.** In the per-property style path, a node with a positive own
vertical scroll offset and computed `overflow-y` of `auto` or `scroll`
gets `overflow-y: hidden` committed on the clone. -/
theorem C4_overflowY_hidden (env : Env) (native : Node) (clone : CNode)
    (hk : ¬clone.kind = NodeKind.text)
    (htext : native.computed.cssText = "")
    (hmem : "overflow-y" ∈ native.computed.names)
    (hs : native.scrollTop > 0)
    (ho : native.computed.overflowY = "auto" ∨ native.computed.overflowY = "scroll") :
    (cloneCSSStyle env native clone).style.getPropertyValue "overflow-y" = "hidden" := by
  rw [cloneCSSStyle_slow env native clone hk htext, CNode.style_withStyle,
    foldl_applyName_mem env native _ _ _ hmem (by decide),
    correctedValue_overflowY env native hs ho]

/-- Witness for C4: `scrollTop = 40` with computed `overflow-y: auto`
yields clone `overflow-y: hidden`. -/
theorem C4_overflowY_hidden_witness :
    (cloneCSSStyle wEnv scrollNode wClone).style.getPropertyValue "overflow-y" = "hidden" :=
  C4_overflowY_hidden wEnv scrollNode wClone (by decide) (by decide) (by decide)
    (by decide) (Or.inl (by decide))

def pScroll : ParentInfo := ⟨25, ⟨"", "", [⟨"overflow-y", "scroll", ""⟩]⟩⟩

def childNode : Node :=
  Node.mk { baseData with
    computed := ⟨"", "", [⟨"position", "static", ""⟩, ⟨"top", "0px", ""⟩]⟩,
    parent := some pScroll } none none []

def pBody : ParentInfo :=
  ⟨25, ⟨"", "", [⟨"overflow-y", "scroll", ""⟩, ⟨"min-height", "600px", ""⟩]⟩⟩

def bodyChild : Node :=
  Node.mk { baseData with
    computed := ⟨"", "",
      [⟨"position", "static", ""⟩, ⟨"top", "0px", ""⟩, ⟨"height", "800px", ""⟩]⟩,
    parent := some pBody } none none []

/-- **C5 (amended).** In the per-property style path, for a node whose
parent exists with positive `scrollTop` and computed `overflow-y`
`auto`/`scroll`, *provided the document-scroll check does not also fire*,
the clone gets `position: relative` and `top: -<parent scrollTop>px`, and
the `inset-block` property is absent from the clone's style. -/
theorem C5_ancestor_scroll_correction (env : Env) (native : Node) (clone : CNode)
    (p : ParentInfo)
    (hk : ¬clone.kind = NodeKind.text)
    (htext : native.computed.cssText = "")
    (hp : native.parent = some p)
    (hps : p.scrollTop > 0)
    (hpo : p.computed.overflowY = "auto" ∨ p.computed.overflowY = "scroll")
    (hbody : bodyScrollCond env native.computed p.computed = false)
    (htop : "top" ∈ native.computed.names)
    (hpos : "position" ∈ native.computed.names)
    (hins : "inset-block" ∉ native.computed.names) :
    (cloneCSSStyle env native clone).style.getPropertyValue "top" =
        "-" ++ toString p.scrollTop ++ "px"
    ∧ (cloneCSSStyle env native clone).style.getPropertyValue "position" = "relative"
    ∧ (cloneCSSStyle env native clone).style.hasProperty "inset-block" = false := by
  have ha := ancestorScrollCond_true p hps hpo
  rw [cloneCSSStyle_slow env native clone hk htext, CNode.style_withStyle]
  refine ⟨?_, ?_, ?_⟩
  · rw [foldl_applyName_mem env native _ _ _ htop (by decide),
      correctedValue_top env native p hp ha, hbody]
    simp
  · rw [foldl_applyName_mem env native _ _ _ hpos (by decide),
      correctedValue_position env native p hp (Or.inl ha)]
  · exact foldl_applyName_inset_removed env native _ _ hins htop
      (insetTouched_top env native p hp (Or.inl ha))

/-- Witness for the amended C5: a child of a parent with `scrollTop = 25`
and `overflow-y: scroll` (document-scroll check not firing) ends with
`position: relative`, `top: -25px`, and no `inset-block`. -/
theorem C5_ancestor_scroll_correction_witness :
    (cloneCSSStyle wEnv childNode wClone).style.getPropertyValue "top" = "-25px"
    ∧ (cloneCSSStyle wEnv childNode wClone).style.getPropertyValue "position" = "relative"
    ∧ (cloneCSSStyle wEnv childNode wClone).style.hasProperty "inset-block" = false := by
  have h := C5_ancestor_scroll_correction wEnv childNode wClone pScroll (by decide)
    (by decide) (by decide) (by decide) (Or.inr (by decide)) (by decide) (by decide)
    (by decide) (by decide)
  exact h

/-- Counterexample to C5 as stated: when the document-scroll check also
fires for the same parent, the committed `top` is the negated window
scroll offset (`-7px` here), not the negated parent `scrollTop`
(`-25px`). -/
theorem C5_counterexample :
    bodyChild.parent = some pBody
    ∧ pBody.scrollTop = 25
    ∧ pBody.computed.overflowY = "scroll"
    ∧ (cloneCSSStyle wEnv bodyChild wClone).style.getPropertyValue "top" = "-7px"
    ∧ ¬((cloneCSSStyle wEnv bodyChild wClone).style.getPropertyValue "top" = "-25px") := by
  decide

/-- **C6.** Per property, the ancestor-scroll and document-scroll checks
are both evaluated against the same parent, document-scroll second, and
the later one wins: with the ancestor-scroll condition holding, if the
document-scroll condition also holds the committed `top` is the negated
window scroll offset, otherwise the negated parent `scrollTop`; and the
document-scroll condition holds exactly when the original's computed
position is not `fixed`, the parent's `min-height` equals the viewport
height in pixels, and that `min-height` is numerically (`parseInt`) less
than the original's own computed height. -/
theorem C6_document_scroll_priority (env : Env) (native : Node) (clone : CNode)
    (p : ParentInfo)
    (hk : ¬clone.kind = NodeKind.text)
    (htext : native.computed.cssText = "")
    (hp : native.parent = some p)
    (ha : ancestorScrollCond p = true)
    (htop : "top" ∈ native.computed.names) :
    (bodyScrollCond env native.computed p.computed = true →
      (cloneCSSStyle env native clone).style.getPropertyValue "top" =
        "-" ++ toString env.scrollY ++ "px")
    ∧ (bodyScrollCond env native.computed p.computed = false →
      (cloneCSSStyle env native clone).style.getPropertyValue "top" =
        "-" ++ toString p.scrollTop ++ "px")
    ∧ (bodyScrollCond env native.computed p.computed = true ↔
        (native.computed.position ≠ "fixed"
          ∧ p.computed.minHeight = toString env.innerHeight ++ "px"
          ∧ jsLt (jsParseInt (replaceFirst p.computed.minHeight "px" ""))
              (jsParseInt (replaceFirst native.computed.height "px" "")) = true)) := by
  refine ⟨?_, ?_, ?_⟩
  · intro hb
    rw [cloneCSSStyle_slow env native clone hk htext, CNode.style_withStyle,
      foldl_applyName_mem env native _ _ _ htop (by decide),
      correctedValue_top env native p hp ha, hb]
    simp
  · intro hb
    rw [cloneCSSStyle_slow env native clone hk htext, CNode.style_withStyle,
      foldl_applyName_mem env native _ _ _ htop (by decide),
      correctedValue_top env native p hp ha, hb]
    simp
  · unfold bodyScrollCond
    simp [Bool.and_eq_true, bne_iff_ne, and_assoc]

/-- Witness for C6: both checks fire for `bodyChild` (parent `scrollTop =
25`, `min-height: 600px` = viewport, own height `800px`), and the
document-scroll value wins: `top` is `-7px` (window scroll 7), not
`-25px`. -/
theorem C6_document_scroll_priority_witness :
    (cloneCSSStyle wEnv bodyChild wClone).style.getPropertyValue "top" =
      "-" ++ toString wEnv.scrollY ++ "px" := by
  have h := C6_document_scroll_priority wEnv bodyChild wClone pBody (by decide)
    (by decide) (by decide) (by decide) (by decide)
  exact h.1 (by decide)

/-- **C1.** For a non-root node, when the inclusion predicate exists and
rejects the node, `cloneNode` returns `null` immediately: the result is
`ok none`, `cloneNode` is invoked on no other node (the invocation trace
is just `[n]`, so no descendant is visited), the predicate is consulted
exactly once, and — the embedding being pure — no other effect occurs. -/
theorem C1_filter_excludes_subtree (env : Env) (options : Options) (f : Node → Bool)
    (n : Node) (hf : options.filter = some f) (hn : f n = false) :
    cloneNodeT env options false n =
      { res := Except.ok none, calls := [n], fcalls := [n] } := by
  rw [cloneNodeT]
  have h1 : filterExcludes options n = true := by simp [filterExcludes, hf, hn]
  simp [h1, hf]

def divChild : Node := Node.mk { baseData with tag := some "SPAN" } none none []

def filteredDiv : Node := Node.mk baseData none none [divChild]

def divFilter : Node → Bool := fun m => m.tag != some "DIV"

/-- Witness for C1: a filter rejecting `DIV` prunes a `DIV` with a child
without visiting the child. -/
theorem C1_filter_excludes_subtree_witness :
    cloneNodeT wEnv ⟨some divFilter⟩ false filteredDiv =
      { res := Except.ok none, calls := [filteredDiv], fcalls := [filteredDiv] } :=
  C1_filter_excludes_subtree wEnv ⟨some divFilter⟩ divFilter filteredDiv rfl (by decide)

/-- **C7.** Effective child selection: assigned (projected) nodes of a
slot-type element when the method is available, else the shadow root's
children when a shadow root exists, else the node's direct children; a
video node's children are never traversed, and an empty effective child
list returns the clone with no work (no invocation, no consultation). -/
theorem C7_effective_child_selection (env : Env) (options : Options) (native : Node)
    (cloned : CNode) :
    (∀ l, isSlotElement native = true → native.assigned = some l →
      native.effectiveChildren = l)
    ∧ ((isSlotElement native = false ∨ native.assigned = none) →
      ∀ s, native.shadow = some s → native.effectiveChildren = s)
    ∧ ((isSlotElement native = false ∨ native.assigned = none) →
      native.shadow = none → native.effectiveChildren = native.childNodes)
    ∧ (native.isVideo = true →
      cloneChildrenT env options native cloned = (Except.ok cloned, [], []))
    ∧ (native.effectiveChildren = [] →
      cloneChildrenT env options native cloned = (Except.ok cloned, [], [])) := by
  obtain ⟨d, a, sh, c⟩ := native
  refine ⟨?_, ?_, ?_, ?_, ?_⟩
  · intro l hslot ha
    simp only [Node.assigned] at ha
    subst ha
    simp only [isSlotElement, Node.tag, Node.data] at hslot
    simp [Node.effectiveChildren, hslot]
  · intro h s hs
    simp only [Node.shadow] at hs
    subst hs
    rcases h with h | h
    · simp only [isSlotElement, Node.tag, Node.data] at h
      simp [Node.effectiveChildren, h]
    · simp only [Node.assigned] at h
      subst h
      simp [Node.effectiveChildren]
  · intro h hs
    simp only [Node.shadow] at hs
    subst hs
    rcases h with h | h
    · simp only [isSlotElement, Node.tag, Node.data] at h
      simp [Node.effectiveChildren, Node.childNodes, h]
    · simp only [Node.assigned] at h
      subst h
      simp [Node.effectiveChildren, Node.childNodes]
  · intro h
    rw [cloneChildrenT]
    simp [h]
  · intro h
    rw [cloneChildrenT]
    simp [h]

def slotAssigned : Node :=
  Node.mk { baseData with tag := some "slot" } (some [divChild]) (some [filteredDiv]) []

def shadowHost : Node := Node.mk baseData none (some [divChild]) [filteredDiv]

def plainParent : Node := Node.mk baseData none none [divChild]

def videoParent : Node :=
  Node.mk { baseData with tag := some "VIDEO", kind := NodeKind.video } none none [divChild]

def emptyParent : Node := Node.mk baseData none none []

/-- Witness for C7: each selection branch at a concrete node — assigned
nodes beat the shadow root, the shadow root beats direct children, video
children are not traversed, and an empty list is a no-op. -/
theorem C7_effective_child_selection_witness :
    slotAssigned.effectiveChildren = [divChild]
    ∧ shadowHost.effectiveChildren = [divChild]
    ∧ plainParent.effectiveChildren = [divChild]
    ∧ cloneChildrenT wEnv ⟨none⟩ videoParent wClone = (Except.ok wClone, [], [])
    ∧ cloneChildrenT wEnv ⟨none⟩ emptyParent wClone = (Except.ok wClone, [], []) :=
  ⟨(C7_effective_child_selection wEnv ⟨none⟩ slotAssigned wClone).1 [divChild]
      (by decide) rfl,
   (C7_effective_child_selection wEnv ⟨none⟩ shadowHost wClone).2.1 (Or.inl (by decide))
      [divChild] rfl,
   (C7_effective_child_selection wEnv ⟨none⟩ plainParent wClone).2.2.1 (Or.inr rfl) rfl,
   (C7_effective_child_selection wEnv ⟨none⟩ videoParent wClone).2.2.2.1 rfl,
   (C7_effective_child_selection wEnv ⟨none⟩ emptyParent wClone).2.2.2.2 rfl⟩

/-- **C8.** Canvas cloning: the pixel content is serialized; the
empty-canvas sentinel `"data:,"` yields a shallow structural clone of the
canvas (same tag, canvas kind, no pixel source, no children); any other
serialization yields a fresh image-type node whose source is the
serialization, replacing the canvas. -/
theorem C8_canvas_cloning (env : Env) (options : Options) (n : Node)
    (hc : n.kind = NodeKind.canvas) :
    (n.canvasDataURL = "data:," →
      cloneSingleNode env options n = Except.ok (shallowClone n)
      ∧ (shallowClone n).kind = NodeKind.canvas
      ∧ (shallowClone n).src = ""
      ∧ (shallowClone n).tag = n.tag
      ∧ (shallowClone n).children = [])
    ∧ (n.canvasDataURL ≠ "data:," →
      cloneSingleNode env options n = Except.ok (createImage n.canvasDataURL)
      ∧ (createImage n.canvasDataURL).kind = NodeKind.img
      ∧ (createImage n.canvasDataURL).src = n.canvasDataURL) := by
  constructor
  · intro hurl
    refine ⟨?_, ?_, rfl, rfl, rfl⟩
    · unfold cloneSingleNode cloneCanvasElement
      simp [hc, hurl]
    · exact hc
  · intro hurl
    refine ⟨?_, rfl, rfl⟩
    unfold cloneSingleNode cloneCanvasElement
    simp [hc, hurl]

def blankCanvas : Node :=
  Node.mk { baseData with
    tag := some "CANVAS", kind := NodeKind.canvas,
    canvasDataURL := "data:," } none none []

def drawnCanvas : Node :=
  Node.mk { baseData with
    tag := some "CANVAS", kind := NodeKind.canvas,
    canvasDataURL := "data:image/png;base64,AAAA" } none none []

/-- Witness for C8: a blank canvas clones to a structural canvas clone, a
drawn canvas to an image node carrying the serialization. -/
theorem C8_canvas_cloning_witness :
    cloneSingleNode wEnv ⟨none⟩ blankCanvas = Except.ok (shallowClone blankCanvas)
    ∧ (shallowClone blankCanvas).kind = NodeKind.canvas
    ∧ cloneSingleNode wEnv ⟨none⟩ drawnCanvas =
        Except.ok (createImage "data:image/png;base64,AAAA")
    ∧ (createImage "data:image/png;base64,AAAA").kind = NodeKind.img :=
  ⟨((C8_canvas_cloning wEnv ⟨none⟩ blankCanvas rfl).1 rfl).1,
   ((C8_canvas_cloning wEnv ⟨none⟩ blankCanvas rfl).1 rfl).2.1,
   ((C8_canvas_cloning wEnv ⟨none⟩ drawnCanvas rfl).2 (by decide)).1,
   ((C8_canvas_cloning wEnv ⟨none⟩ drawnCanvas rfl).2 (by decide)).2.1⟩

/-- The child clone delivered by a recursive invocation (`none` both for a
predicate-excluded child and for a rejection; used only under the
assumption that the invocation resolved). -/
def okClone (r : CloneRes) : Option CNode :=
  match r.res with
  | Except.ok (some c) => some c
  | _ => none

theorem CNode.withChildren_self (c : CNode) : c.withChildren c.children = c := by
  cases c; rfl

theorem CNode.appendChild_children (c x : CNode) :
    (c.appendChild x).children = c.children ++ [x] := by
  cases c; rfl

theorem CNode.withChildren_appendChild (c x : CNode) (l : List CNode) :
    (c.appendChild x).withChildren l = c.withChildren l := by
  cases c; rfl

theorem cloneListT_ok (env : Env) (options : Options) (cs : List Node) (acc : CNode)
    (h : ∀ c ∈ cs, ∃ v, (cloneNodeT env options false c).res = Except.ok v) :
    cloneListT env options cs acc =
      (Except.ok (acc.withChildren (acc.children ++
          cs.filterMap (fun c => okClone (cloneNodeT env options false c)))),
        (cs.map (fun c => (cloneNodeT env options false c).calls)).flatten,
        (cs.map (fun c => (cloneNodeT env options false c).fcalls)).flatten) := by
  induction cs generalizing acc with
  | nil =>
    rw [cloneListT]
    simp [CNode.withChildren_self]
  | cons c rest ih =>
    obtain ⟨v, hv⟩ := h c (List.mem_cons_self _ _)
    have hrest : ∀ x ∈ rest, ∃ v, (cloneNodeT env options false x).res = Except.ok v :=
      fun x hx => h x (List.mem_cons_of_mem _ hx)
    rw [cloneListT]
    rcases hcr : cloneNodeT env options false c with ⟨cres, ccalls, cfcalls⟩
    rw [hcr] at hv
    simp only at hv
    subst hv
    cases v with
    | none =>
      simp only [ih _ hrest, List.map_cons, List.flatten_cons, hcr]
      simp [List.filterMap_cons, hcr, okClone]
    | some cc =>
      simp only [ih _ hrest, List.map_cons, List.flatten_cons, hcr]
      simp [List.filterMap_cons, hcr, okClone, CNode.withChildren_appendChild,
        CNode.appendChild_children, List.append_assoc]

/-- **C2.** For a non-video node whose effective children all resolve, the
children appended by `cloneChildren` are exactly the non-`null` results of
the sequential non-root recursive `cloneNode` invocations, in the original
effective order (a `null` result is skipped, keeping the remaining
siblings contiguous and ordered), and the invocation trace is the
concatenation of the children's traces in order. -/
theorem C2_sequential_child_order (env : Env) (options : Options) (native : Node)
    (cloned : CNode) (hvid : native.isVideo = false)
    (h : ∀ c ∈ native.effectiveChildren, ∃ v,
      (cloneNodeT env options false c).res = Except.ok v) :
    (cloneChildrenT env options native cloned).1 =
      Except.ok (cloned.withChildren (cloned.children ++
        native.effectiveChildren.filterMap
          (fun c => okClone (cloneNodeT env options false c))))
    ∧ (cloneChildrenT env options native cloned).2.1 =
      (native.effectiveChildren.map
        (fun c => (cloneNodeT env options false c).calls)).flatten := by
  rw [cloneChildrenT]
  by_cases he : native.effectiveChildren.length = 0
  · rw [List.length_eq_zero] at he
    simp [he, CNode.withChildren_self]
  · simp only [he, hvid, if_false, decide_false_eq_false]
    rw [cloneListT_ok env options _ _ h]
    simp

theorem CNode.withStyle_style_self (c : CNode) : c.withStyle c.style = c := by
  cases c; rfl

def aN : Node := Node.mk { baseData with tag := some "A" } none none []
def bN : Node := Node.mk { baseData with tag := some "B" } none none []
def cN : Node := Node.mk { baseData with tag := some "C" } none none []

def listParent : Node := Node.mk baseData none none [aN, bN, cN]

def optsB : Options := ⟨some (fun m => m.tag != some "B")⟩

theorem leafClone_eval (n : Node) (hleaf : n.effectiveChildren = [])
    (hkind : n.kind = NodeKind.element)
    (htext : n.computed.cssText = "") (hprops : n.computed.props = [])
    (hpass : filterExcludes optsB n = false) :
    cloneNodeT wEnv optsB false n =
      { res := Except.ok (some (shallowClone n)), calls := [n], fcalls := [n] } := by
  have hch : cloneChildrenT wEnv optsB n (shallowClone n) =
      (Except.ok (shallowClone n), [], []) := by
    rw [cloneChildrenT]
    simp [hleaf]
  have h1 : cloneSingleNode wEnv optsB n = Except.ok (shallowClone n) := by
    unfold cloneSingleNode
    simp [hkind]
  have h2 : decorate wEnv n (shallowClone n) = shallowClone n := by
    unfold decorate
    have he : (shallowClone n).isElement = true := by
      simp [CNode.isElement, shallowClone, CNode.kind, CNode.data, hkind]
    rw [if_pos he]
    have hcss : cloneCSSStyle wEnv n (shallowClone n) = shallowClone n := by
      rw [cloneCSSStyle_slow wEnv n (shallowClone n)
        (by simp [shallowClone, CNode.kind, CNode.data, hkind]) htext]
      rw [show n.computed.names = [] by simp [StyleDecl.names, hprops]]
      exact CNode.withStyle_style_self _
    rw [hcss]
    show cloneSelectValue n (cloneInputValue n (shallowClone n)) = shallowClone n
    unfold cloneSelectValue cloneInputValue
    simp [hkind]
  have hs : optsB.filter.isSome = true := rfl
  rw [cloneNodeT]
  simp [hpass, h1, hch, h2, hs]

/-- Witness for C2: children `[a, b, c]` with `b` excluded by the filter
produce exactly `[clone(a), clone(c)]`, in order. -/
theorem C2_sequential_child_order_witness :
    (cloneChildrenT wEnv optsB listParent wClone).1 =
      Except.ok (wClone.withChildren [shallowClone aN, shallowClone cN]) := by
  have ha := leafClone_eval aN rfl rfl rfl rfl (by decide)
  have hcN := leafClone_eval cN rfl rfl rfl rfl (by decide)
  have hb : cloneNodeT wEnv optsB false bN =
      { res := Except.ok none, calls := [bN], fcalls := [bN] } := by
    rw [cloneNodeT]
    have hex : filterExcludes optsB bN = true := by decide
    have hs : optsB.filter.isSome = true := rfl
    simp [hex, hs]
  have heff : listParent.effectiveChildren = [aN, bN, cN] := rfl
  have hall : ∀ c ∈ listParent.effectiveChildren, ∃ v,
      (cloneNodeT wEnv optsB false c).res = Except.ok v := by
    rw [heff]
    intro c hcm
    simp only [List.mem_cons, List.not_mem_nil, or_false] at hcm
    rcases hcm with rfl | rfl | rfl
    · exact ⟨some (shallowClone aN), by rw [ha]⟩
    · exact ⟨none, by rw [hb]⟩
    · exact ⟨some (shallowClone cN), by rw [hcN]⟩
  have h := C2_sequential_child_order wEnv optsB listParent wClone rfl hall
  rw [h.1, heff]
  simp [List.filterMap_cons, okClone, ha, hb, hcN]
  rfl

/-- A plain element wrapped around a single child (ancestor-chain
builder). -/
def wrapDiv (c : Node) : Node := Node.mk baseData none none [c]

/-- `nest k n` wraps `n` in `k` plain ancestor elements. -/
def nest : Nat → Node → Node
  | 0, v => v
  | k + 1, v => wrapDiv (nest k v)

theorem cloneNodeT_video_error (env : Env) (options : Options) (e : String) (n : Node)
    (hk : n.kind = NodeKind.video) (hp : n.poster ≠ "")
    (he : env.resourceToDataURL n.poster (env.getMimeType n.poster) options =
      Except.error e)
    (hf : options.filter = none) :
    ∀ k b, (cloneNodeT env options b (nest k n)).res = Except.error e := by
  have hsingle : cloneSingleNode env options n = Except.error e := by
    unfold cloneSingleNode cloneVideoElement
    simp [hk, hp, he]
  have hpass : ∀ m, filterExcludes options m = false := by
    intro m
    simp [filterExcludes, hf]
  intro k
  induction k with
  | zero =>
    intro b
    rw [nest, cloneNodeT]
    simp [hpass, hsingle]
  | succ k ih =>
    intro b
    have heff : (wrapDiv (nest k n)).effectiveChildren = [nest k n] := rfl
    have hlist : cloneListT env options [nest k n] (shallowClone (wrapDiv (nest k n))) =
        (Except.error e, (cloneNodeT env options false (nest k n)).calls,
          (cloneNodeT env options false (nest k n)).fcalls) := by
      rw [cloneListT]
      rcases hcr : cloneNodeT env options false (nest k n) with ⟨cres, cl, fl⟩
      have := ih false
      rw [hcr] at this
      simp only at this
      subst this
      simp [cloneListT, hcr]
    have hch : cloneChildrenT env options (wrapDiv (nest k n))
        (shallowClone (wrapDiv (nest k n))) =
        (Except.error e, (cloneNodeT env options false (nest k n)).calls,
          (cloneNodeT env options false (nest k n)).fcalls) := by
      rw [cloneChildrenT, heff]
      have hv : (wrapDiv (nest k n)).isVideo = false := rfl
      simp [hv, hlist]
    have hsingle2 : cloneSingleNode env options (wrapDiv (nest k n)) =
        Except.ok (shallowClone (wrapDiv (nest k n))) := by
      unfold cloneSingleNode
      simp [Node.kind, Node.data, wrapDiv, baseData]
    rw [nest, cloneNodeT]
    simp [hpass, hsingle2, hch]

/-- **C9.** A failing poster conversion for a video node is caught
nowhere: `cloneVideoElement` rejects with the conversion's error, and for
any depth of enclosing ancestors every `cloneNode` call in the chain
rejects with that same error — no partial clone is delivered. -/
theorem C9_video_poster_failure_propagates (env : Env) (options : Options) (e : String)
    (n : Node) (hk : n.kind = NodeKind.video) (hp : n.poster ≠ "")
    (he : env.resourceToDataURL n.poster (env.getMimeType n.poster) options =
      Except.error e)
    (hf : options.filter = none) :
    cloneVideoElement env options n = Except.error e
    ∧ ∀ k, cloneNode env (nest k n) options true = Except.error e := by
  constructor
  · unfold cloneVideoElement
    simp [he]
  · intro k
    exact cloneNodeT_video_error env options e n hk hp he hf k true

def badEnv : Env :=
  { scrollY := 0, innerHeight := 600, getMimeType := fun _ => "image/png",
    resourceToDataURL := fun _ _ _ => Except.error "network failure",
    clonePseudoElements := fun _ c => c }

def posterVideo : Node :=
  Node.mk { baseData with
    tag := some "VIDEO", kind := NodeKind.video, poster := "poster.png" } none none []

/-- Witness for C9: a rejecting poster conversion fails the whole clone
of a two-deep ancestor chain with the same error. -/
theorem C9_video_poster_failure_propagates_witness :
    cloneNode badEnv (nest 2 posterVideo) ⟨none⟩ true = Except.error "network failure" :=
  (C9_video_poster_failure_propagates badEnv ⟨none⟩ "network failure" posterVideo rfl
    (by decide) rfl rfl).2 2

theorem cloneListT_fcalls_mem (env : Env) (options : Options) (cs : List Node)
    (acc : CNode) (m : Node) (hm : m ∈ (cloneListT env options cs acc).2.2) :
    ∃ c ∈ cs, m ∈ (cloneNodeT env options false c).fcalls := by
  induction cs generalizing acc with
  | nil =>
    rw [cloneListT] at hm
    simp at hm
  | cons c rest ih =>
    rw [cloneListT] at hm
    rcases hcr : cloneNodeT env options false c with ⟨cres, cl, fl⟩
    rw [hcr] at hm
    cases cres with
    | error e =>
      simp only at hm
      exact ⟨c, List.mem_cons_self _ _, by rw [hcr]; exact hm⟩
    | ok v =>
      cases v with
      | none =>
        simp only at hm
        rcases List.mem_append.mp hm with h | h
        · exact ⟨c, List.mem_cons_self _ _, by rw [hcr]; exact h⟩
        · obtain ⟨x, hx, hmx⟩ := ih _ h
          exact ⟨x, List.mem_cons_of_mem _ hx, hmx⟩
      | some cc =>
        simp only at hm
        rcases List.mem_append.mp hm with h | h
        · exact ⟨c, List.mem_cons_self _ _, by rw [hcr]; exact h⟩
        · obtain ⟨x, hx, hmx⟩ := ih _ h
          exact ⟨x, List.mem_cons_of_mem _ hx, hmx⟩

theorem cloneChildrenT_fcalls_mem (env : Env) (options : Options) (native : Node)
    (cloned : CNode) (m : Node)
    (hm : m ∈ (cloneChildrenT env options native cloned).2.2) :
    ∃ c ∈ native.effectiveChildren, m ∈ (cloneNodeT env options false c).fcalls := by
  rw [cloneChildrenT] at hm
  by_cases h : (decide (native.effectiveChildren.length = 0) || native.isVideo) = true
  · rw [if_pos h] at hm
    simp at hm
  · rw [if_neg h] at hm
    exact cloneListT_fcalls_mem env options _ _ m hm

theorem mem_guard_trace {b : Bool} {options : Options} {n m : Node}
    (hm : m ∈ (if (!b && options.filter.isSome) = true then [n] else [])) : m = n := by
  split at hm
  · simpa using hm
  · simp at hm

theorem cloneNodeT_fcalls_sizeOf (env : Env) (options : Options) :
    ∀ (N : ℕ) (n : Node), sizeOf n ≤ N → ∀ (b : Bool) (m : Node),
      m ∈ (cloneNodeT env options b n).fcalls → sizeOf m ≤ sizeOf n := by
  intro N
  induction N with
  | zero =>
    intro n hn b m _
    exfalso
    obtain ⟨d, a, s, c⟩ := n
    simp at hn
  | succ N ih =>
    intro n hn b m hm
    rw [cloneNodeT] at hm
    by_cases hg : (!b && filterExcludes options n) = true
    · rw [if_pos hg] at hm
      simp only at hm
      exact (mem_guard_trace hm) ▸ le_refl _
    · rw [if_neg hg] at hm
      rcases hs : cloneSingleNode env options n with e | c0 <;> rw [hs] at hm
      · simp only at hm
        exact (mem_guard_trace hm) ▸ le_refl _
      · simp only at hm
        rcases hc : cloneChildrenT env options n c0 with ⟨cres2, cl, fl⟩
        rw [hc] at hm
        have hfl : m ∈ (if (!b && options.filter.isSome) = true then [n] else []) ∨ m ∈ fl := by
          cases cres2 with
          | error e => simp only at hm; exact List.mem_append.mp hm
          | ok c1 => simp only at hm; exact List.mem_append.mp hm
        rcases hfl with h | h
        · exact (mem_guard_trace h) ▸ le_refl _
        · have h2 : m ∈ (cloneChildrenT env options n c0).2.2 := by rw [hc]; exact h
          obtain ⟨c, hcmem, hmc⟩ := cloneChildrenT_fcalls_mem env options n c0 m h2
          have h3 : sizeOf c < sizeOf n :=
            lt_trans (sizeOf_mem_list hcmem) (sizeOf_effectiveChildren n)
          have h4 : sizeOf c ≤ N := by omega
          exact le_trans (ih c h4 false m hmc) (le_of_lt h3)

/-- **C10.** A root invocation never consults the inclusion predicate on
the root node (the consultation trace never contains the root — every
consulted node is a strictly smaller subterm) and never resolves to
`null`: the result is a fully built clone or a rejection. -/
theorem C10_root_bypasses_filter (env : Env) (options : Options) (n : Node) :
    (cloneNodeT env options true n).res ≠ Except.ok none
    ∧ n ∉ (cloneNodeT env options true n).fcalls := by
  constructor
  · rw [cloneNodeT]
    simp only [Bool.not_true, Bool.false_and, if_false, Bool.false_eq_true]
    rcases hs : cloneSingleNode env options n with e | c0
    · simp
    · rcases hc : cloneChildrenT env options n c0 with ⟨cres2, cl, fl⟩
      cases cres2 <;> simp [hc]
  · intro hmem
    rw [cloneNodeT] at hmem
    simp only [Bool.not_true, Bool.false_and, if_false, Bool.false_eq_true,
      Option.isSome] at hmem
    rcases hs : cloneSingleNode env options n with e | c0 <;> rw [hs] at hmem
    · simp at hmem
    · simp only at hmem
      rcases hc : cloneChildrenT env options n c0 with ⟨cres2, cl, fl⟩
      rw [hc] at hmem
      have hfl : n ∈ fl := by
        cases cres2 with
        | error e => simpa using hmem
        | ok c1 => simpa using hmem
      have h2 : n ∈ (cloneChildrenT env options n c0).2.2 := by rw [hc]; exact hfl
      obtain ⟨c, hcmem, hmc⟩ := cloneChildrenT_fcalls_mem env options n c0 n h2
      have h3 : sizeOf c < sizeOf n :=
        lt_trans (sizeOf_mem_list hcmem) (sizeOf_effectiveChildren n)
      have h4 := cloneNodeT_fcalls_sizeOf env options (sizeOf c) c (le_refl _) false n hmc
      omega

/-- Witness for C10 at a concrete input: even with a filter that rejects
the root, the root invocation does not resolve to `null` and never
consults the predicate on the root. -/
theorem C10_root_bypasses_filter_witness :
    (cloneNodeT wEnv ⟨some divFilter⟩ true filteredDiv).res ≠ Except.ok none
    ∧ filteredDiv ∉ (cloneNodeT wEnv ⟨some divFilter⟩ true filteredDiv).fcalls :=
  C10_root_bypasses_filter wEnv ⟨some divFilter⟩ filteredDiv
